import Mathlib

/-!
Shallow embedding of `snake_pixels` (`src/main.rs`): a grid snake game with a
software framebuffer.  Pure data and the state-transition functions are
translated directly from the Rust source; wall-clock instants (`Instant`) are
modelled as natural numbers, with the value of `Instant::now()` during a call
passed in as an explicit parameter, and the random index stream consumed by
`add_food`'s rejection-sampling loop is passed in as an explicit list (the
loop diverging on an exhausted list is modelled by `Option.none`).
Machine-integer subtraction on `usize` is checked, as in a debug build: an
underflow or an out-of-range slice access is modelled by `Option.none`
(a panic).
-/

/-- Grid position, `struct Vec2(i32, i32)` (main.rs line 130).  Field `x`
models the Rust tuple field `.0` and `y` models `.1`. -/
structure Vec2 where
  x : Int
  y : Int
deriving DecidableEq, Repr

/-- `impl Add for Vec2` (main.rs lines 139-145); `AddAssign` (lines 132-137)
performs the same componentwise addition. -/
instance : Add Vec2 := ⟨fun a b => ⟨a.x + b.x, a.y + b.y⟩⟩

theorem Vec2.add_def (a b : Vec2) : a + b = ⟨a.x + b.x, a.y + b.y⟩ := rfl

/-- `struct Color(u32)` (main.rs line 17); the wrapped value is the packed
RGBA word. -/
structure Color where
  val : Nat
deriving DecidableEq, Repr

/-- `Color::rgb` (main.rs lines 20-22): `r | g << 8 | b << 16 | 0xFF000000`. -/
def Color.rgb (r g b : Nat) : Color :=
  ⟨r ||| (g <<< 8) ||| (b <<< 16) ||| 0xFF000000⟩

/-- `fn clamp<T: PartialOrd>(input, min, max)` (main.rs lines 29-37),
instantiated at `i32`. -/
def clamp (input min max : Int) : Int :=
  if input < min then min
  else if input > max then max
  else input

/-- The framebuffer surface, `struct Canvas` (main.rs lines 46-51).  The
`pixels` field models the `u32` view of the pixel buffer
(`pixels_slice_u32_mut`); the `Pixels` GPU backend and the `frame_times`
FPS window (wall-clock state used only for the FPS metric) are outside the
embedding. -/
structure Canvas where
  width : Nat
  height : Nat
  pixels : List Nat
deriving DecidableEq, Repr

/-- `Canvas::set_pixel` (main.rs lines 97-108): out-of-range coordinates are
silently ignored; otherwise the pixel at row-major index
`width * (height - y - 1) + x` (vertical flip) is overwritten. -/
def Canvas.set_pixel (c : Canvas) (x y : Int) (color : Color) : Canvas :=
  if x < 0 ∨ y < 0 then c
  else if x.toNat ≥ c.width ∨ y.toNat ≥ c.height then c
  else { c with
         pixels := c.pixels.set (c.width * (c.height - y.toNat - 1) + x.toNat)
                     color.val }

/-- One `slice[offset..offset+w].fill(color)` write: the entries at indices
`offset ≤ i < offset + w` are replaced.  Callers check
`offset + w ≤ buf.length` first (a Rust slice-range panic otherwise). -/
def setRange (buf : List Nat) (offset w : Nat) (color : Nat) : List Nat :=
  buf.take offset ++ List.replicate w color ++ buf.drop (offset + w)

/-- The row loop of `Canvas::fill_rectangle` (main.rs lines 118-121): `h`
iterations of `slice[offset..offset+w].fill(color); offset += width`.
`none` models the panic when a slice range exceeds the buffer. -/
def fillRows (buf : List Nat) (offset width w : Nat) (color : Nat) :
    Nat → Option (List Nat)
  | 0 => some buf
  | n + 1 =>
      if offset + w ≤ buf.length then
        fillRows (setRange buf offset w color) (offset + width) width w color n
      else none

/-- `Canvas::fill_rectangle` (main.rs lines 110-122): clamps `x0` and `y0`
into `[0, width]` / `[0, height]` (inclusive upper bounds), clamps `h` to at
most `y0`, then fills `h` rows of width `w` starting at
`width * (height - y0 - 1) + x0`.  The `usize` subtraction `height - y0 - 1`
is checked: `none` models its underflow panic (hit when the clamped `y0`
equals `height`). -/
def Canvas.fill_rectangle (c : Canvas) (x0 y0 : Int) (w h : Nat)
    (color : Color) : Option Canvas :=
  let x0 := (clamp x0 0 (c.width : Int)).toNat
  let y0 := (clamp y0 0 (c.height : Int)).toNat
  let h := if h > y0 then y0 else h
  if c.height < y0 + 1 then none
  else
    let offset := c.width * (c.height - y0 - 1) + x0
    (fillRows c.pixels offset c.width w color.val h).map
      fun buf => { c with pixels := buf }

/-- The game state, `struct State` (main.rs lines 160-173).  `Duration` and
`Instant` fields are natural numbers; the `fps_update` cell (wall-clock
state used only for throttled FPS logging in `render`) is outside the
embedding. -/
structure State where
  tick : Nat
  food_tick : Nat
  next_update : Nat
  next_food : Nat
  width : Int
  height : Int
  v : Vec2
  head : Vec2
  tail : List Vec2
  food : Finset Vec2
deriving DecidableEq

/-- `State::new` (main.rs lines 176-192), with `Instant::now()` at
construction time passed as `now`. -/
def State.new (now : Nat) : State :=
  { tick := 400
    food_tick := 1500
    next_update := now + 400
    next_food := now + 1500
    width := 15
    height := 15
    v := ⟨1, 0⟩
    head := ⟨8, 7⟩
    tail := [⟨7, 7⟩, ⟨6, 7⟩]
    food := ∅ }

/-- The backward shift loop of `State::step` (main.rs lines 226-228):
`for i in (0..m).rev() { tail[i+1] = tail[i] }`, where the caller passes
`m = tail.len() - 1`.  `runShift t (m+1)` performs the body at `i = m` and
recurses, matching the descending iteration order. -/
def runShift (t : List Vec2) : Nat → List Vec2
  | 0 => t
  | m + 1 => runShift (t.set (m + 1) (t.getD m ⟨0, 0⟩)) m

/-- `State::step` (main.rs lines 212-232).  Returns the `bool` result
(`true` = terminated) together with the state after the call.  The slice
`tail[0..tail.len()-1]` is `tail.take (tail.length - 1)`.  In Rust an empty
tail panics (the slice bound `0 - 1` underflows); that state is unreachable
(the tail starts at length 2 and never shrinks), and the embedding is total
there via truncated `Nat` subtraction. -/
def State.step (s : State) : Bool × State :=
  let new_head := s.head + s.v
  if new_head.x < 0 ∨ new_head.x ≥ s.width ∨
     new_head.y < 0 ∨ new_head.y ≥ s.height ∨
     new_head ∈ s.tail.take (s.tail.length - 1) then
    (true, s)
  else
    let grown :=
      if new_head ∈ s.food then
        (s.tail ++ [(⟨0, 0⟩ : Vec2)], s.food.erase new_head)
      else (s.tail, s.food)
    let shifted := (runShift grown.1 (grown.1.length - 1)).set 0 s.head
    (false, { s with head := new_head, tail := shifted, food := grown.2 })

/-- The acceptance test of `State::add_food`'s rejection-sampling loop
(main.rs line 243): the candidate cell is not food, not tail, and not the
head. -/
def foodCandidateOk (s : State) (pos : Vec2) : Bool :=
  !(decide (pos ∈ s.food)) && !(decide (pos ∈ s.tail)) && !(decide (pos = s.head))

/-- `State::add_food` (main.rs lines 234-248).  The stream of sampled
indices `gen_range(0..total_nodes)` is passed as `rand`; the loop takes the
first candidate whose cell `(idx % width, idx / width)` is free and inserts
it.  `none` models the loop running past the supplied stream (the Rust loop
has no iteration cap). -/
def State.add_food (s : State) (rand : List Int) : Option (Bool × State) :=
  let total_nodes := s.width * s.height
  if s.tail.length + s.food.card + 2 ≥ total_nodes.toNat then
    some (true, s)
  else
    match rand.find? (fun idx =>
        foodCandidateOk s ⟨idx % s.width, idx / s.width⟩) with
    | some idx =>
        some (false, { s with
          food := insert (⟨idx % s.width, idx / s.width⟩ : Vec2) s.food })
    | none => none

/-- The food half of `State::update` (main.rs lines 202-207): if the food
set is empty or the food deadline has passed, run one `add_food`; on its
failure signal return `true` at once, otherwise reschedule `next_food` to
`now + food_tick` and fall through to the `false` return. -/
def State.updateFood (s : State) (now : Nat) (rand : List Int) :
    Option (Bool × State) :=
  if s.food = ∅ ∨ now > s.next_food then
    match s.add_food rand with
    | none => none
    | some (true, s1) => some (true, s1)
    | some (false, s1) =>
        some (false, { s1 with next_food := now + s1.food_tick })
  else some (false, s)

/-- `State::update` (main.rs lines 194-210), with `Instant::now()` during
the call passed as `now`.  If the step deadline has passed, run one `step`;
on its failure signal return `true` at once, otherwise reschedule
`next_update` to `now + tick` and continue with the food half. -/
def State.update (s : State) (now : Nat) (rand : List Int) :
    Option (Bool × State) :=
  if now > s.next_update then
    let r := s.step
    if r.1 then some (true, r.2)
    else ({ r.2 with next_update := now + r.2.tick }).updateFood now rand
  else s.updateFood now rand

/-- The state invariant of the spec's data model (§3): the direction is one
of the four unit vectors, the head is never present in the tail, and every
food cell is disjoint from the head and from every tail cell. -/
def State.Inv (s : State) : Prop :=
  s.v ∈ [(⟨1, 0⟩ : Vec2), ⟨-1, 0⟩, ⟨0, 1⟩, ⟨0, -1⟩] ∧
  s.head ∉ s.tail ∧
  ∀ p ∈ s.food, p ≠ s.head ∧ p ∉ s.tail

instance (s : State) : Decidable s.Inv := by
  unfold State.Inv; infer_instance

theorem runShift_eq : ∀ (m : Nat) (t : List Vec2), m < t.length →
    runShift t m = t.take 1 ++ t.take m ++ t.drop (m + 1) := by
  intro m
  induction m with
  | zero =>
    intro t ht
    cases t with
    | nil => simp at ht
    | cons a l => simp [runShift]
  | succ m ih =>
    intro t ht
    rw [runShift]
    have hm1 : m + 1 < t.length := ht
    rw [ih _ (by simp; omega)]
    have hgd : t.getD m ⟨0,0⟩ = t[m] := List.getD_eq_getElem t ⟨0,0⟩ (by omega)
    rw [hgd, List.set_eq_take_cons_drop _ hm1]
    have hlenA : (t.take (m+1)).length = m + 1 := by
      rw [List.length_take]; omega
    rw [List.take_append_of_le_length (by rw [hlenA]; omega),
        List.take_append_of_le_length (by rw [hlenA]; omega),
        List.take_take, List.take_take]
    have h1 : min 1 (m+1) = 1 := by omega
    have h2 : min m (m+1) = m := by omega
    rw [h1, h2]
    rw [List.drop_append_of_le_length (by rw [hlenA])]
    have hdropA : (t.take (m+1)).drop (m+1) = [] := by
      apply List.drop_eq_nil_of_le; rw [hlenA]
    rw [hdropA, List.nil_append]
    have htk : t.take (m+1) = t.take m ++ [t[m]] := by
      simp
    rw [htk]
    simp only [List.append_assoc, List.singleton_append]

theorem runShift_set (t : List Vec2) (h : Vec2) (hne : t ≠ []) :
    (runShift t (t.length - 1)).set 0 h = h :: t.dropLast := by
  cases t with
  | nil => exact absurd rfl hne
  | cons a l =>
    have hlen : (a :: l).length - 1 = l.length := by simp
    rw [hlen, runShift_eq l.length (a :: l) (by simp)]
    have hdrop : (a :: l).drop (l.length + 1) = [] :=
      List.drop_eq_nil_of_le (by simp)
    rw [hdrop, List.append_nil]
    rw [List.dropLast_eq_take]
    simp

theorem step_fail (s : State)
    (h : (s.head + s.v).x < 0 ∨ (s.head + s.v).x ≥ s.width ∨
         (s.head + s.v).y < 0 ∨ (s.head + s.v).y ≥ s.height ∨
         (s.head + s.v) ∈ s.tail.take (s.tail.length - 1)) :
    s.step = (true, s) := by
  rw [State.step]
  simp only [if_pos h]

theorem step_ok_no_food (s : State)
    (hx0 : 0 ≤ (s.head + s.v).x) (hxw : (s.head + s.v).x < s.width)
    (hy0 : 0 ≤ (s.head + s.v).y) (hyh : (s.head + s.v).y < s.height)
    (hcoll : (s.head + s.v) ∉ s.tail.take (s.tail.length - 1))
    (hfood : (s.head + s.v) ∉ s.food) (hne : s.tail ≠ []) :
    s.step = (false, { s with head := s.head + s.v,
                              tail := s.head :: s.tail.dropLast }) := by
  rw [State.step]
  rw [if_neg (by push_neg; exact ⟨hx0, hxw, hy0, hyh, hcoll⟩)]
  simp only [if_neg hfood]
  rw [runShift_set s.tail s.head hne]

theorem step_ok_food (s : State)
    (hx0 : 0 ≤ (s.head + s.v).x) (hxw : (s.head + s.v).x < s.width)
    (hy0 : 0 ≤ (s.head + s.v).y) (hyh : (s.head + s.v).y < s.height)
    (hcoll : (s.head + s.v) ∉ s.tail.take (s.tail.length - 1))
    (hfood : (s.head + s.v) ∈ s.food) :
    s.step = (false, { s with head := s.head + s.v,
                              tail := s.head :: s.tail,
                              food := s.food.erase (s.head + s.v) }) := by
  rw [State.step]
  rw [if_neg (by push_neg; exact ⟨hx0, hxw, hy0, hyh, hcoll⟩)]
  simp only [if_pos hfood]
  rw [runShift_set (s.tail ++ [(⟨0,0⟩ : Vec2)]) s.head (by simp)]
  rw [List.dropLast_concat]

/-- C1: an in-bounds, collision-free step returns terminated=false, sets the
head to `head + v`, and shifts the tail toward the head: `tail[0]` becomes
the old head and each other tail cell takes its predecessor's value. -/
theorem c1_step_advances (s : State)
    (hx0 : 0 ≤ (s.head + s.v).x) (hxw : (s.head + s.v).x < s.width)
    (hy0 : 0 ≤ (s.head + s.v).y) (hyh : (s.head + s.v).y < s.height)
    (hcoll : (s.head + s.v) ∉ s.tail.take (s.tail.length - 1))
    (hne : s.tail ≠ []) :
    s.step.1 = false ∧ s.step.2.head = s.head + s.v ∧
    s.step.2.tail.head? = some s.head ∧
    ∀ i, i + 1 < s.step.2.tail.length →
      s.step.2.tail.getD (i + 1) ⟨0, 0⟩ = s.tail.getD i ⟨0, 0⟩ := by
  by_cases hf : (s.head + s.v) ∈ s.food
  · rw [step_ok_food s hx0 hxw hy0 hyh hcoll hf]
    refine ⟨rfl, rfl, rfl, ?_⟩
    intro i hi
    simp only [List.getD_cons_succ]
  · rw [step_ok_no_food s hx0 hxw hy0 hyh hcoll hf hne]
    refine ⟨rfl, rfl, rfl, ?_⟩
    intro i hi
    simp only [List.getD_cons_succ]
    simp only [List.length_cons, List.length_dropLast] at hi
    have hi2 : i < s.tail.length - 1 := by omega
    rw [List.dropLast_eq_take]
    rw [List.getD_eq_getElem (s.tail.take (s.tail.length - 1)) ⟨0,0⟩
          (by rw [List.length_take]; omega),
        List.getD_eq_getElem s.tail ⟨0,0⟩ (by omega)]
    simp [List.getElem_take]

/-- C1 witness: grid 15x15, head=(8,7), tail=[(7,7),(6,7)], v=(1,0) — one
step yields head=(9,7), tail=[(8,7),(7,7)], terminated=false. -/
theorem c1_step_advances_witness :
    (0 ≤ ((State.new 0).head + (State.new 0).v).x ∧
     ((State.new 0).head + (State.new 0).v).x < (State.new 0).width ∧
     (State.new 0).tail ≠ []) ∧
    ((State.new 0).step.1 = false ∧
     (State.new 0).step.2.head = (State.new 0).head + (State.new 0).v ∧
     (State.new 0).step.2.tail.head? = some (State.new 0).head ∧
     ∀ i, i + 1 < (State.new 0).step.2.tail.length →
       (State.new 0).step.2.tail.getD (i + 1) ⟨0, 0⟩ =
         (State.new 0).tail.getD i ⟨0, 0⟩) ∧
    (State.new 0).step =
      (false, { State.new 0 with head := ⟨9, 7⟩, tail := [⟨8, 7⟩, ⟨7, 7⟩] }) :=
  ⟨by decide,
   c1_step_advances (State.new 0) (by decide) (by decide) (by decide)
     (by decide) (by decide) (by decide),
   by decide⟩

/-- C2: when `head + v` is out of bounds, `step` returns terminated=true and
the whole state (head, tail, food, direction, timers) is unchanged. -/
theorem c2_oob_step_unchanged (s : State)
    (h : (s.head + s.v).x < 0 ∨ (s.head + s.v).x ≥ s.width ∨
         (s.head + s.v).y < 0 ∨ (s.head + s.v).y ≥ s.height) :
    s.step = (true, s) :=
  step_fail s (by tauto)

/-- C2 witness: head=(14,7), v=(1,0), width=15 — step terminates with the
state unchanged. -/
theorem c2_oob_step_unchanged_witness :
    (({ State.new 0 with head := ⟨14, 7⟩ } : State).head +
        ({ State.new 0 with head := ⟨14, 7⟩ } : State).v).x ≥
      ({ State.new 0 with head := ⟨14, 7⟩ } : State).width ∧
    ({ State.new 0 with head := ⟨14, 7⟩ } : State).step =
      (true, { State.new 0 with head := ⟨14, 7⟩ }) :=
  ⟨by decide,
   c2_oob_step_unchanged { State.new 0 with head := ⟨14, 7⟩ }
     (by right; left; decide)⟩

/-- C3: with a tail of length k >= 1, an in-bounds new head equal only to
the last (vacating) tail cell lets the step succeed, while a new head equal
to any earlier tail cell terminates the game. -/
theorem c3_self_collision_exemption (s : State) :
    (s.tail.length ≥ 1 →
     0 ≤ (s.head + s.v).x → (s.head + s.v).x < s.width →
     0 ≤ (s.head + s.v).y → (s.head + s.v).y < s.height →
     s.tail.getD (s.tail.length - 1) ⟨0, 0⟩ = s.head + s.v →
     (s.head + s.v) ∉ s.tail.take (s.tail.length - 1) →
     s.step.1 = false) ∧
    (∀ i, i < s.tail.length - 1 → s.tail.getD i ⟨0, 0⟩ = s.head + s.v →
     s.step.1 = true) := by
  constructor
  · intro hk hx0 hxw hy0 hyh _ honly
    by_cases hf : (s.head + s.v) ∈ s.food
    · rw [step_ok_food s hx0 hxw hy0 hyh honly hf]
    · rw [step_ok_no_food s hx0 hxw hy0 hyh honly hf
           (by intro h0; rw [h0] at hk; simp at hk)]
  · intro i hi heq
    have hmem : (s.head + s.v) ∈ s.tail.take (s.tail.length - 1) := by
      rw [← heq, List.getD_eq_getElem s.tail ⟨0, 0⟩ (by omega)]
      have hlt : i < (s.tail.take (s.tail.length - 1)).length := by
        rw [List.length_take]; omega
      have : (s.tail.take (s.tail.length - 1))[i] = s.tail[i] := by
        simp [List.getElem_take]
      rw [← this]
      exact List.getElem_mem hlt
    rw [step_fail s (by tauto)]

/-- C3 witness: v=(1,0) reversed to v=(-1,0) with head=(8,7) and
tail=[(7,7),(6,7)]: the new head (7,7) equals tail[0], not the last tail
cell, and the step terminates. -/
theorem c3_self_collision_exemption_witness :
    (0 < ({ State.new 0 with v := ⟨-1, 0⟩ } : State).tail.length - 1 ∧
     ({ State.new 0 with v := ⟨-1, 0⟩ } : State).tail.getD 0 ⟨0, 0⟩ =
       ({ State.new 0 with v := ⟨-1, 0⟩ } : State).head +
         ({ State.new 0 with v := ⟨-1, 0⟩ } : State).v) ∧
    ({ State.new 0 with v := ⟨-1, 0⟩ } : State).step.1 = true :=
  ⟨by decide,
   (c3_self_collision_exemption { State.new 0 with v := ⟨-1, 0⟩ }).2 0
     (by decide) (by decide)⟩

theorem step_fst_false_not_blocked (s : State) (h : s.step.1 = false) :
    ¬((s.head + s.v).x < 0 ∨ (s.head + s.v).x ≥ s.width ∨
      (s.head + s.v).y < 0 ∨ (s.head + s.v).y ≥ s.height ∨
      (s.head + s.v) ∈ s.tail.take (s.tail.length - 1)) := by
  intro hb
  rw [step_fail s hb] at h
  simp at h

/-- C4: a successful step onto a food cell grows the tail by exactly one and
removes that cell from the food set; a step whose new head is not a food
cell leaves the tail length and the food set unchanged. -/
theorem c4_food_consumption (s : State) (hne : s.tail ≠ []) :
    (s.step.1 = false → (s.head + s.v) ∈ s.food →
      s.step.2.tail.length = s.tail.length + 1 ∧
      (s.head + s.v) ∉ s.step.2.food) ∧
    ((s.head + s.v) ∉ s.food →
      s.step.2.tail.length = s.tail.length ∧ s.step.2.food = s.food) := by
  constructor
  · intro hok hf
    have hnb := step_fst_false_not_blocked s hok
    push_neg at hnb
    obtain ⟨hx0, hxw, hy0, hyh, hcoll⟩ := hnb
    rw [step_ok_food s hx0 hxw hy0 hyh hcoll hf]
    exact ⟨by simp, Finset.not_mem_erase _ _⟩
  · intro hf
    by_cases hb : (s.head + s.v).x < 0 ∨ (s.head + s.v).x ≥ s.width ∨
        (s.head + s.v).y < 0 ∨ (s.head + s.v).y ≥ s.height ∨
        (s.head + s.v) ∈ s.tail.take (s.tail.length - 1)
    · rw [step_fail s hb]
      exact ⟨rfl, rfl⟩
    · push_neg at hb
      obtain ⟨hx0, hxw, hy0, hyh, hcoll⟩ := hb
      rw [step_ok_no_food s hx0 hxw hy0 hyh hcoll hf hne]
      refine ⟨?_, rfl⟩
      simp [List.length_dropLast]
      have : s.tail.length ≠ 0 := by
        intro h0
        exact hne (List.length_eq_zero.mp h0)
      omega

/-- C4 witness: head=(8,7), tail=[(7,7)], food={(9,7)}, v=(1,0): the step
eats the food, growing the tail to length 2 and emptying the food set. -/
theorem c4_food_consumption_witness :
    (({ State.new 0 with tail := [⟨7, 7⟩], food := {⟨9, 7⟩} } : State).tail ≠ [] ∧
     ({ State.new 0 with tail := [⟨7, 7⟩], food := {⟨9, 7⟩} } : State).step.1 = false ∧
     (⟨9, 7⟩ : Vec2) ∈ ({ State.new 0 with tail := [⟨7, 7⟩], food := {⟨9, 7⟩} } : State).food) ∧
    ({ State.new 0 with tail := [⟨7, 7⟩], food := {⟨9, 7⟩} } : State).step.2.tail.length =
        ({ State.new 0 with tail := [⟨7, 7⟩], food := {⟨9, 7⟩} } : State).tail.length + 1 ∧
    (⟨9, 7⟩ : Vec2) ∉ ({ State.new 0 with tail := [⟨7, 7⟩], food := {⟨9, 7⟩} } : State).step.2.food :=
  ⟨by decide,
   (c4_food_consumption { State.new 0 with tail := [⟨7, 7⟩], food := {⟨9, 7⟩} }
     (by decide)).1 (by decide) (by decide)⟩

/-- A saturated 2x2 board: one tail cell and one food cell, so
`tail.len() + food.len() + 2 = 4 = width*height`. -/
def saturatedState : State :=
  { State.new 0 with width := 2, height := 2, tail := [⟨0, 0⟩], food := {⟨1, 1⟩} }

/-- C5: whenever `tail.len() + food.len() + 2 >= width*height`, a food-spawn
attempt returns the termination signal and mutates nothing. -/
theorem c5_saturation_guard (s : State) (rand : List Int)
    (h : s.tail.length + s.food.card + 2 ≥ (s.width * s.height).toNat) :
    s.add_food rand = some (true, s) := by
  rw [State.add_food]
  simp only [if_pos h]

/-- C5 witness: on the saturated 2x2 board the spawn attempt terminates with
the state unchanged. -/
theorem c5_saturation_guard_witness :
    (saturatedState.tail.length + saturatedState.food.card + 2 ≥
      (saturatedState.width * saturatedState.height).toNat) ∧
    saturatedState.add_food [] = some (true, saturatedState) :=
  ⟨by decide, c5_saturation_guard saturatedState [] (by decide)⟩

/-- Modelled from the spec's wording of `advance_if_due` (claim C6): check
the simulation deadline; if due, perform one step and reschedule that
deadline to `now + tick_interval`, returning true the moment the step
signals termination; then check the food deadline — or fire immediately if
the food set is empty — perform one food-spawn attempt, rescheduling
similarly and returning true the moment it signals termination; otherwise
return false. -/
def updateSpec (s : State) (now : Nat) (rand : List Int) :
    Option (Bool × State) :=
  let afterStep : Option (Bool × State) :=
    if now > s.next_update then
      match s.step with
      | (true, s1) => some (true, s1)
      | (false, s1) => some (false, { s1 with next_update := now + s1.tick })
    else some (false, s)
  match afterStep with
  | none => none
  | some (true, s1) => some (true, s1)
  | some (false, s1) =>
      if s1.food = ∅ ∨ now > s1.next_food then
        match s1.add_food rand with
        | none => none
        | some (true, s2) => some (true, s2)
        | some (false, s2) =>
            some (false, { s2 with next_food := now + s2.food_tick })
      else some (false, s1)

/-- C6: `update` behaves exactly as the spec describes `advance_if_due`:
deadline-gated step with reschedule to `now + tick`, independently
deadline-gated (or food-empty-triggered) spawn attempt with reschedule to
`now + food_tick`, returning true the moment either signals termination and
false otherwise. -/
theorem c6_update_refines_spec (s : State) (now : Nat) (rand : List Int) :
    s.update now rand = updateSpec s now rand := by
  rw [State.update, updateSpec]
  by_cases h : now > s.next_update
  · simp only [if_pos h]
    rcases hs : s.step with ⟨b, s1⟩
    cases b
    · rfl
    · rfl
  · simp only [if_neg h]
    rfl

theorem step_ok_no_food_nil (s : State)
    (hx0 : 0 ≤ (s.head + s.v).x) (hxw : (s.head + s.v).x < s.width)
    (hy0 : 0 ≤ (s.head + s.v).y) (hyh : (s.head + s.v).y < s.height)
    (hfood : (s.head + s.v) ∉ s.food) (hne : s.tail = []) :
    s.step = (false, { s with head := s.head + s.v }) := by
  rw [State.step]
  rw [if_neg (by push_neg; exact ⟨hx0, hxw, hy0, hyh, by simp [hne]⟩)]
  simp only [if_neg hfood]
  rw [hne]
  rfl

theorem head_add_v_ne_head (s : State)
    (hv : s.v ∈ [(⟨1, 0⟩ : Vec2), ⟨-1, 0⟩, ⟨0, 1⟩, ⟨0, -1⟩]) :
    s.head + s.v ≠ s.head := by
  intro h
  have hx : s.head.x + s.v.x = s.head.x := congrArg Vec2.x h
  have hy : s.head.y + s.v.y = s.head.y := congrArg Vec2.y h
  simp only [List.mem_cons, List.not_mem_nil, or_false] at hv
  rcases hv with h1 | h1 | h1 | h1 <;> rw [h1] at hx hy <;> simp at hx hy

/-- C7: the state invariant (direction a unit vector, head never in the
tail, food disjoint from head and tail) is preserved by every
non-terminating `step` and `add_food`, and the tail length never shrinks:
it stays constant or grows by one. -/
theorem c7_invariant_preserved (s : State) (rand : List Int) :
    (s.Inv → s.step.1 = false →
      s.step.2.Inv ∧
      (s.step.2.tail.length = s.tail.length ∨
       s.step.2.tail.length = s.tail.length + 1)) ∧
    (s.Inv → ∀ s', s.add_food rand = some (false, s') →
      s'.Inv ∧ s'.tail.length = s.tail.length) := by
  constructor
  · rintro ⟨hv, hht, hfd⟩ hok
    have hnb := step_fst_false_not_blocked s hok
    push_neg at hnb
    obtain ⟨hx0, hxw, hy0, hyh, hcoll⟩ := hnb
    by_cases hf : (s.head + s.v) ∈ s.food
    · rw [step_ok_food s hx0 hxw hy0 hyh hcoll hf]
      refine ⟨⟨hv, ?_, ?_⟩, by simp⟩
      · intro hmem
        rcases List.mem_cons.mp hmem with h1 | h1
        · exact (hfd _ hf).1 h1
        · exact (hfd _ hf).2 h1
      · intro p hp
        have hp1 : p ∈ s.food := Finset.mem_of_mem_erase hp
        have hp2 : p ≠ s.head + s.v := Finset.ne_of_mem_erase hp
        refine ⟨?_, ?_⟩
        · intro h1
          rw [h1] at hp2
          exact hp2 rfl
        · intro h1
          rcases List.mem_cons.mp h1 with h2 | h2
          · exact (hfd _ hp1).1 h2
          · exact (hfd _ hp1).2 h2
    · by_cases hne : s.tail = []
      · rw [step_ok_no_food_nil s hx0 hxw hy0 hyh hf hne]
        refine ⟨⟨hv, by simp [hne], ?_⟩, Or.inl (by simp [hne])⟩
        intro p hp
        refine ⟨fun h1 => hf ?_, by simp [hne]⟩
        rw [h1] at hp
        exact hp
      · have hlen0 : s.tail.length ≠ 0 :=
          fun h0 => hne (List.length_eq_zero.mp h0)
        rw [step_ok_no_food s hx0 hxw hy0 hyh hcoll hf hne]
        refine ⟨⟨hv, ?_, ?_⟩, ?_⟩
        · intro hmem
          rcases List.mem_cons.mp hmem with h1 | h1
          · exact head_add_v_ne_head s hv h1
          · rw [List.dropLast_eq_take] at h1
            exact hcoll h1
        · intro p hp
          refine ⟨?_, ?_⟩
          · intro h1
            rw [h1] at hp
            exact hf hp
          · intro h1
            rcases List.mem_cons.mp h1 with h2 | h2
            · exact (hfd _ hp).1 h2
            · exact (hfd _ hp).2 (List.dropLast_subset _ h2)
        · left
          simp only [List.length_cons, List.length_dropLast]
          omega
  · rintro ⟨hv, hht, hfd⟩ s' hs'
    rw [State.add_food] at hs'
    by_cases hguard : s.tail.length + s.food.card + 2 ≥ (s.width * s.height).toNat
    · rw [if_pos hguard] at hs'
      simp at hs'
    · rw [if_neg hguard] at hs'
      rcases hfind : (rand.find? (fun idx =>
          foodCandidateOk s ⟨idx % s.width, idx / s.width⟩)) with _ | idx
      · rw [hfind] at hs'
        simp at hs'
      · rw [hfind] at hs'
        have hcand := List.find?_some hfind
        simp only [foodCandidateOk, Bool.and_eq_true, Bool.not_eq_true',
          decide_eq_false_iff_not] at hcand
        injection hs' with h1
        injection h1 with hfst hsnd
        subst hsnd
        refine ⟨⟨hv, hht, ?_⟩, rfl⟩
        intro p hp
        rcases Finset.mem_insert.mp hp with h2 | h2
        · subst h2
          exact ⟨hcand.2, hcand.1.2⟩
        · exact hfd _ h2

/-- C7 witness: at the freshly constructed state, one successful step and
one successful spawn attempt (candidate index 0, cell (0,0)) both preserve
the invariant, and the tail length does not shrink. -/
theorem c7_invariant_preserved_witness :
    ((State.new 0).Inv ∧ (State.new 0).step.1 = false ∧
     (State.new 0).add_food [0] =
       some (false, { State.new 0 with food := {⟨0, 0⟩} })) ∧
    ((State.new 0).step.2.Inv ∧
     ((State.new 0).step.2.tail.length = (State.new 0).tail.length ∨
      (State.new 0).step.2.tail.length = (State.new 0).tail.length + 1)) ∧
    (({ State.new 0 with food := {⟨0, 0⟩} } : State).Inv ∧
     ({ State.new 0 with food := {⟨0, 0⟩} } : State).tail.length =
       (State.new 0).tail.length) :=
  ⟨by decide,
   (c7_invariant_preserved (State.new 0) [0]).1 (by decide) (by decide),
   (c7_invariant_preserved (State.new 0) [0]).2 (by decide)
     { State.new 0 with food := {⟨0, 0⟩} } (by decide)⟩

/-- C8: `set_pixel` with any out-of-range coordinate leaves the canvas (in
particular the whole pixel buffer) unchanged and signals no error, and with
in-range coordinates writes exactly the one pixel at the flipped row-major
index, leaving every other index unchanged. -/
theorem c8_set_pixel (c : Canvas) (x y : Int) (color : Color) :
    ((x < 0 ∨ y < 0 ∨ x ≥ (c.width : Int) ∨ y ≥ (c.height : Int)) →
      c.set_pixel x y color = c) ∧
    (0 ≤ x → x < (c.width : Int) → 0 ≤ y → y < (c.height : Int) →
      (c.set_pixel x y color).pixels =
        c.pixels.set (c.width * (c.height - y.toNat - 1) + x.toNat)
          color.val ∧
      (c.pixels.length = c.width * c.height →
        (c.set_pixel x y color).pixels.getD
            (c.width * (c.height - y.toNat - 1) + x.toNat) 0 = color.val) ∧
      ∀ j, j ≠ c.width * (c.height - y.toNat - 1) + x.toNat →
        (c.set_pixel x y color).pixels.getD j 0 = c.pixels.getD j 0) := by
  constructor
  · intro h
    rw [Canvas.set_pixel]
    by_cases h1 : x < 0 ∨ y < 0
    · rw [if_pos h1]
    · rw [if_neg h1]
      rw [if_pos (by push_neg at h1; omega)]
  · intro hx0 hxw hy0 hyh
    have hidx : c.width * (c.height - y.toNat - 1) + x.toNat <
        c.width * c.height := by
      have h1 : c.height - y.toNat - 1 + 1 ≤ c.height := by omega
      have h2 : c.width * (c.height - y.toNat - 1 + 1) ≤
          c.width * c.height := Nat.mul_le_mul_left c.width h1
      have h3 : c.width * (c.height - y.toNat - 1 + 1) =
          c.width * (c.height - y.toNat - 1) + c.width := by ring
      omega
    have hset : (c.set_pixel x y color).pixels =
        c.pixels.set (c.width * (c.height - y.toNat - 1) + x.toNat)
          color.val := by
      rw [Canvas.set_pixel]
      rw [if_neg (by omega)]
      rw [if_neg (by omega)]
    refine ⟨hset, ?_, ?_⟩
    · intro hlen
      rw [hset]
      rw [List.getD_eq_getElem _ 0 (by rw [List.length_set]; omega)]
      rw [List.getElem_set_self]
    · intro j hj
      rw [hset]
      by_cases hjl : j < c.pixels.length
      · rw [List.getD_eq_getElem _ 0 (by rw [List.length_set]; omega),
            List.getD_eq_getElem _ 0 hjl]
        exact List.getElem_set_ne (by omega) (by rw [List.length_set]; omega)
      · rw [List.getD_eq_default _ 0 (by rw [List.length_set]; omega),
            List.getD_eq_default _ 0 (by omega)]

/-- A 2x2 canvas with a zeroed 4-pixel buffer, used by the drawing
witnesses. -/
def smallCanvas : Canvas := ⟨2, 2, [0, 0, 0, 0]⟩

/-- C8 witness: on the 2x2 canvas, `set_pixel (-1) 0` is a no-op and
`set_pixel 1 0` writes exactly buffer index 3. -/
theorem c8_set_pixel_witness :
    ((-1 : Int) < 0 ∧ smallCanvas.set_pixel (-1) 0 ⟨5⟩ = smallCanvas) ∧
    ((smallCanvas.set_pixel 1 0 ⟨5⟩).pixels =
        smallCanvas.pixels.set
          (smallCanvas.width * (smallCanvas.height - (0 : Int).toNat - 1) +
            (1 : Int).toNat) 5 ∧
      (smallCanvas.pixels.length = smallCanvas.width * smallCanvas.height →
        (smallCanvas.set_pixel 1 0 ⟨5⟩).pixels.getD
            (smallCanvas.width * (smallCanvas.height - (0 : Int).toNat - 1) +
              (1 : Int).toNat) 0 = 5) ∧
      ∀ j, j ≠ smallCanvas.width * (smallCanvas.height - (0 : Int).toNat - 1) +
          (1 : Int).toNat →
        (smallCanvas.set_pixel 1 0 ⟨5⟩).pixels.getD j 0 =
          smallCanvas.pixels.getD j 0) :=
  ⟨⟨by decide, (c8_set_pixel smallCanvas (-1) 0 ⟨5⟩).1 (by left; decide)⟩,
   (c8_set_pixel smallCanvas 1 0 ⟨5⟩).2 (by decide) (by decide) (by decide)
     (by decide)⟩

/-- C9: `fill_rectangle` clamps the height against the clamped `y0`, so a
call with `h > y0` produces exactly the same result as the call with
`h = y0`. -/
theorem c9_fill_rectangle_height_clamp (c : Canvas) (x0 y0 : Int)
    (w h : Nat) (color : Color) (hh : h > y0.toNat) :
    c.fill_rectangle x0 y0 w h color =
      c.fill_rectangle x0 y0 w y0.toNat color := by
  have ha : (clamp y0 0 (c.height : Int)).toNat ≤ y0.toNat := by
    unfold clamp
    split_ifs <;> omega
  have heq : (if h > (clamp y0 0 (c.height : Int)).toNat then
        (clamp y0 0 (c.height : Int)).toNat else h) =
      (if y0.toNat > (clamp y0 0 (c.height : Int)).toNat then
        (clamp y0 0 (c.height : Int)).toNat else y0.toNat) := by
    split_ifs <;> omega
  rw [Canvas.fill_rectangle, Canvas.fill_rectangle]
  simp only [heq]

/-- C9 witness: on the 2x2 canvas with `y0 = 1`, `h = 5 > 1` yields the same
result as `h = 1`. -/
theorem c9_fill_rectangle_height_clamp_witness :
    5 > (1 : Int).toNat ∧
    smallCanvas.fill_rectangle 0 1 1 5 ⟨5⟩ =
      smallCanvas.fill_rectangle 0 1 1 (1 : Int).toNat ⟨5⟩ :=
  ⟨by decide, c9_fill_rectangle_height_clamp smallCanvas 0 1 1 5 ⟨5⟩ (by decide)⟩

theorem fillRows_isSome (width w color : Nat) :
    ∀ (n : Nat) (buf : List Nat) (offset : Nat),
      (∀ j, j < n → offset + j * width + w ≤ buf.length) →
      (fillRows buf offset width w color n).isSome := by
  intro n
  induction n with
  | zero =>
    intro buf offset _
    simp [fillRows]
  | succ n ih =>
    intro buf offset hb
    rw [fillRows]
    have h0 : offset + w ≤ buf.length := by
      have := hb 0 (by omega)
      simpa using this
    rw [if_pos h0]
    apply ih
    intro j hj
    have hlen2 : (setRange buf offset w color).length = buf.length := by
      unfold setRange
      simp only [List.length_append, List.length_take,
        List.length_replicate, List.length_drop]
      omega
    rw [hlen2]
    have hb2 := hb (j + 1) (by omega)
    have hmul : (j + 1) * width = j * width + width := by ring
    omega

/-- C10 counterexample: on the 2x2 canvas, `fill_rectangle 0 2 1 1` clamps
`y0` to `height = 2` and the row-offset computation `height - y0 - 1`
underflows (a panic), so the operation is not total. -/
theorem c10_fill_rectangle_counterexample :
    smallCanvas.fill_rectangle 0 2 1 1 ⟨5⟩ = none := by decide

/-- C10 amended: every buffer access of `fill_rectangle` is in bounds and
the row-offset computation does not underflow, provided the clamped `y0` is
strictly below `height` and either `h = 0` or the clamped `x0` plus `w`
fits in a row; without those side conditions the call can underflow
(`y0 = height`) or run a slice access past the buffer (`w` is never
clamped). -/
theorem c10_fill_rectangle_safe (c : Canvas) (x0 y0 : Int) (w h : Nat)
    (color : Color) (hlen : c.pixels.length = c.width * c.height)
    (hy : (clamp y0 0 (c.height : Int)).toNat < c.height)
    (hw : h = 0 ∨ (clamp x0 0 (c.width : Int)).toNat + w ≤ c.width) :
    (c.fill_rectangle x0 y0 w h color).isSome := by
  simp only [Canvas.fill_rectangle]
  rw [if_neg (by omega)]
  have hmap : ∀ (o : Option (List Nat)) (f : List Nat → Canvas),
      (Option.map f o).isSome = o.isSome := by
    intro o f
    cases o <;> rfl
  rw [hmap]
  apply fillRows_isSome
  intro j hj
  rcases hw with h0 | hw2
  · subst h0
    rw [if_neg (by omega)] at hj
    omega
  · have hjy : j < (clamp y0 0 (c.height : Int)).toNat := by
      by_cases hcl : h > (clamp y0 0 (c.height : Int)).toNat
      · rw [if_pos hcl] at hj
        omega
      · rw [if_neg hcl] at hj
        omega
    have e1 : c.height - (clamp y0 0 (c.height : Int)).toNat - 1 + (j + 1) ≤
        c.height := by omega
    have e2 : c.width *
        (c.height - (clamp y0 0 (c.height : Int)).toNat - 1 + (j + 1)) ≤
        c.width * c.height := Nat.mul_le_mul_left c.width e1
    have e3 : c.width *
        (c.height - (clamp y0 0 (c.height : Int)).toNat - 1 + (j + 1)) =
        c.width * (c.height - (clamp y0 0 (c.height : Int)).toNat - 1) +
          j * c.width + c.width := by ring
    omega

/-- C10 amended witness: filling one full row of the 2x2 canvas satisfies
the side conditions and succeeds. -/
theorem c10_fill_rectangle_safe_witness :
    (smallCanvas.pixels.length = smallCanvas.width * smallCanvas.height ∧
     (clamp 1 0 (smallCanvas.height : Int)).toNat < smallCanvas.height ∧
     (clamp 0 0 (smallCanvas.width : Int)).toNat + 2 ≤ smallCanvas.width) ∧
    (smallCanvas.fill_rectangle 0 1 2 1 ⟨5⟩).isSome :=
  ⟨by decide,
   c10_fill_rectangle_safe smallCanvas 0 1 2 1 ⟨5⟩ (by decide) (by decide)
     (Or.inr (by decide))⟩
